import Mathlib

/-!
Verification of the floor-directions / wrapping-paper repository.

The definitions below are a shallow embedding of the Python sources:
`floordirections.py`, `presentdimensions.py`, `wrappinganalysis.py`,
`fileinputhandler.py`, `floorfinder.py`, `wrappingordercalc.py`.
Strings are embedded as `List Char`, exceptions as `Except` with explicit
error types.
-/

/-! ## floordirections.py -/

/-- Error raised when a directions sequence contains invalid characters
(`InvalidFloorDirectionsError`; its base `FloorDirectionsAnalysisError`
has no other concrete subtype). -/
inductive FloorDirectionsAnalysisError where
  | invalidFloorDirections
  deriving DecidableEq, Repr

/-- `FloorDirectionsAnalysis.is_valid_directions_sequence`:
`all(char in VALID_DIRECTIONS for char in sequence)` with
`VALID_DIRECTIONS = {'(', ')'}`. -/
def is_valid_directions_sequence (sequence : List Char) : Bool :=
  sequence.all (fun char => char = '(' || char = ')')

/-- `FloorDirectionsAnalysis._compute_final_floor`:
`sum(1 if char == '(' else -1 for char in self._directions)`. -/
def compute_final_floor (directions : List Char) : Int :=
  (directions.map (fun char => if char = '(' then (1 : Int) else -1)).sum

/-- The loop body of `FloorDirectionsAnalysis._find_first_basement_direction`:
`enumerate(self._directions, start=1)` with accumulator `current_floor`,
returning `position` as soon as the floor hits `-1`, and `0` after the loop. -/
def basementScan (current_floor : Int) (position : Nat) : List Char → Nat
  | [] => 0
  | direction :: rest =>
    let next_floor := current_floor + (if direction = '(' then 1 else -1)
    if next_floor = -1 then position else basementScan next_floor (position + 1) rest

/-- `FloorDirectionsAnalysis._find_first_basement_direction`:
scan from floor `0` with positions starting at `1`. -/
def find_first_basement_direction (directions : List Char) : Nat :=
  basementScan 0 1 directions

/-- Analyzer state: the validated sequence plus the two lazily-populated
cache fields (`self._final_floor`, `self._first_basement_direction_position`,
both initialised to `None`). -/
structure FloorDirectionsAnalysis where
  directions : List Char
  final_floor_cache : Option Int
  first_basement_cache : Option Nat
  deriving DecidableEq, Repr

/-- `FloorDirectionsAnalysis.__init__`: validate the sequence (raising
`InvalidFloorDirectionsError` on invalid characters) and initialise both
caches to `None`. -/
def FloorDirectionsAnalysis.make (sequence : List Char) :
    Except FloorDirectionsAnalysisError FloorDirectionsAnalysis :=
  if is_valid_directions_sequence sequence then
    .ok ⟨sequence, none, none⟩
  else
    .error .invalidFloorDirections

/-- The `final_floor` property: return the cached value if present,
otherwise compute it, store it and return it.  The returned pair is
(value, instance state after the read). -/
def FloorDirectionsAnalysis.final_floor (a : FloorDirectionsAnalysis) :
    Int × FloorDirectionsAnalysis :=
  match a.final_floor_cache with
  | some value => (value, a)
  | none =>
    let value := compute_final_floor a.directions
    (value, { a with final_floor_cache := some value })

/-- The `first_basement_direction_position` property: cached read, as above. -/
def FloorDirectionsAnalysis.first_basement_direction_position
    (a : FloorDirectionsAnalysis) : Nat × FloorDirectionsAnalysis :=
  match a.first_basement_cache with
  | some value => (value, a)
  | none =>
    let value := find_first_basement_direction a.directions
    (value, { a with first_basement_cache := some value })

/-- The running sum of the scan: `+1` per `'('` and `-1` per any other
character, exactly the increments of `_find_first_basement_direction` and
`_compute_final_floor` (on validated sequences the only other character
is `')'`). -/
def running_floor (directions : List Char) : Int :=
  (directions.map (fun char => if char = '(' then (1 : Int) else -1)).sum

/-- Cache-state invariant of an analyzer instance: each cache field is
either unset or holds exactly the value the corresponding computation
produces (the only way the code ever populates it). -/
def FloorDirectionsAnalysis.cacheConsistent (a : FloorDirectionsAnalysis) : Prop :=
  (a.final_floor_cache = none ∨
    a.final_floor_cache = some (compute_final_floor a.directions)) ∧
  (a.first_basement_cache = none ∨
    a.first_basement_cache = some (find_first_basement_direction a.directions))

instance (a : FloorDirectionsAnalysis) : Decidable a.cacheConsistent := by
  unfold FloorDirectionsAnalysis.cacheConsistent
  infer_instance

/-! ## presentdimensions.py -/

/-- The two concrete subtypes of `PresentDimensionsError`
(`PresentDimensionsNotPositiveError`, `InvalidPresentRepresentationError`).
In the source both derive from `PresentDimensionsError`, which itself
derives from Python's `ValueError`. -/
inductive PresentDimensionsError where
  | notPositive
  | invalidRepresentation
  deriving DecidableEq, Repr

/-- State of a constructed `PresentDimensions` instance: the three
dimensions plus the derived fields `_side_areas` and `_surface_area`
computed eagerly in `__init__`. -/
structure PresentDimensions where
  length : Int
  width : Int
  height : Int
  side_areas : List Int
  surface_area : Int
  deriving DecidableEq, Repr

/-- `PresentDimensions.__init__`: reject non-positive dimensions, then set
`_side_areas = sorted((length*width, length*height, width*height))` (Python's
`sorted` is an ascending stable sort) and `_surface_area = 2 * sum(_side_areas)`.
The `isinstance` type check has no counterpart: arguments are `Int` by type. -/
def PresentDimensions.init (length width height : Int) :
    Except PresentDimensionsError PresentDimensions :=
  if length < 1 || width < 1 || height < 1 then
    .error .notPositive
  else
    let areas := List.insertionSort (· ≤ ·) [length * width, length * height, width * height]
    .ok ⟨length, width, height, areas, 2 * areas.sum⟩

/-- The `smallest_side_area` property: `self._side_areas[0]`. -/
def PresentDimensions.smallest_side_area (p : PresentDimensions) : Int :=
  p.side_areas.headI

/-- The characters Python's `str.strip()` (and `int()`) treat as whitespace,
restricted to ASCII. -/
def isPySpace (c : Char) : Bool :=
  c = ' ' || c = '\t' || c = '\n' || c = '\x0d' || c = '\x0b' || c = '\x0c'

/-- Python `str.strip()`: drop whitespace from both ends. -/
def pyStrip (s : List Char) : List Char :=
  ((s.dropWhile isPySpace).reverse.dropWhile isPySpace).reverse

/-- Python `str.split(sep)` for a one-character separator: split at every
occurrence, keeping empty chunks (`''.split('x') == ['']`). -/
def pySplit (sep : Char) : List Char → List (List Char)
  | [] => [[]]
  | c :: rest =>
    if c = sep then [] :: pySplit sep rest
    else
      match pySplit sep rest with
      | [] => [[c]]
      | t :: ts => (c :: t) :: ts

/-- Tail of a Python decimal-digit run: digits, optionally separated by
single underscores (an underscore must sit between two digits). -/
def digitsTail : List Char → Bool
  | [] => true
  | c :: rest =>
    if c = '_' then
      match rest with
      | [] => false
      | c2 :: rest2 => c2.isDigit && digitsTail rest2
    else
      c.isDigit && digitsTail rest

/-- A nonempty Python decimal-digit run (first char must be a digit). -/
def pyDigits (l : List Char) : Bool :=
  match l with
  | [] => false
  | c :: rest => c.isDigit && digitsTail rest

/-- Numeric value of a list of decimal digit characters. -/
def digitsVal (l : List Char) : Nat :=
  l.foldl (fun acc c => 10 * acc + (c.toNat - '0'.toNat)) 0

/-- Python `int(token)` on a `str`: strip surrounding whitespace, accept an
optional sign followed by a decimal-digit run (with optional single
underscores between digits); `none` models the `ValueError` raised
otherwise. -/
def pyInt (s : List Char) : Option Int :=
  let t := pyStrip s
  match t with
  | '+' :: rest =>
    if pyDigits rest then some ((digitsVal (rest.filter (fun c => c ≠ '_')) : Int)) else none
  | '-' :: rest =>
    if pyDigits rest then some (-(digitsVal (rest.filter (fun c => c ≠ '_')) : Int)) else none
  | _ =>
    if pyDigits t then some ((digitsVal (t.filter (fun c => c ≠ '_')) : Int)) else none

/-- The list comprehension
`[int(dimension) for dimension in representation.strip().split('x')]`:
`none` models the first `ValueError` raised by `int`. -/
def parseTokens : List (List Char) → Option (List Int)
  | [] => some []
  | t :: ts =>
    match pyInt t with
    | none => none
    | some v =>
      match parseTokens ts with
      | none => none
      | some vs => some (v :: vs)

/-- `PresentDimensions.from_string`: strip, split on `'x'`, parse each token
with `int`, require exactly 3 values, then call the constructor.  The
`except ValueError` clause turns any `ValueError` raised in the `try` body
into `InvalidPresentRepresentationError` — including the constructor's
`PresentDimensionsNotPositiveError`, which subclasses `ValueError` through
`PresentDimensionsError`. -/
def PresentDimensions.from_string (representation : List Char) :
    Except PresentDimensionsError PresentDimensions :=
  match parseTokens (pySplit 'x' (pyStrip representation)) with
  | none => .error .invalidRepresentation
  | some [l, w, h] =>
    match PresentDimensions.init l w h with
    | .ok p => .ok p
    | .error _ => .error .invalidRepresentation
  | some _ => .error .invalidRepresentation

/-! ## wrappinganalysis.py -/

/-- `WrappingAnalysis._compute_wrapping_paper_required`:
`surface_area + smallest_side_area`. -/
def wrapping_paper_required (present_dimensions : PresentDimensions) : Int :=
  present_dimensions.surface_area + present_dimensions.smallest_side_area

/-- The `total_wrapping_paper_required` property:
`sum(map(self._compute_wrapping_paper_required, self._dims))`. -/
def total_wrapping_paper_required (dims : List PresentDimensions) : Int :=
  (dims.map wrapping_paper_required).sum

/-! ## fileinputhandler.py and the two CLI programs -/

/-- The concrete subtypes of `FileInputError` raised by `read_file` /
`read_lines`. -/
inductive FileInputError where
  | pathDoesNotExist
  | notAFile
  | notAccessible
  | fileEncoding
  deriving DecidableEq, Repr

/-- `floorfinder.main`, given the outcome of `read_file` on the parsed
path: a `FileInputError` is caught and mapped to exit code 3; a
`FloorDirectionsAnalysisError` from the analyzer constructor to exit
code 4; otherwise the success message is printed and 0 returned. -/
def floorfinder_main (read_result : Except FileInputError (List Char)) : Nat :=
  match read_result with
  | .error _ => 3
  | .ok file_content =>
    match FloorDirectionsAnalysis.make file_content with
    | .error _ => 4
    | .ok _ => 0

/-- The list comprehension
`[PresentDimensions.from_string(line) for line in read_lines(file_path)]`:
the first `PresentDimensionsError` propagates. -/
def parse_dimension_lines :
    List (List Char) → Except PresentDimensionsError (List PresentDimensions)
  | [] => .ok []
  | line :: rest =>
    match PresentDimensions.from_string line with
    | .error e => .error e
    | .ok p =>
      match parse_dimension_lines rest with
      | .error e => .error e
      | .ok ps => .ok (p :: ps)

/-- `wrappingordercalc.main`, given the outcome of `read_lines` on the
parsed path: `FileInputError` maps to exit code 3, a
`PresentDimensionsError` while parsing the lines to exit code 4,
otherwise 0. -/
def wrappingordercalc_main
    (read_result : Except FileInputError (List (List Char))) : Nat :=
  match read_result with
  | .error _ => 3
  | .ok lines =>
    match parse_dimension_lines lines with
    | .error _ => 4
    | .ok _ => 0

theorem running_floor_nil : running_floor [] = 0 := rfl

theorem running_floor_cons (c : Char) (l : List Char) :
    running_floor (c :: l) = (if c = '(' then (1 : Int) else -1) + running_floor l := by
  simp [running_floor]

theorem basementScan_eq_zero_iff (dirs : List Char) :
    ∀ (floor : Int) (pos : Nat), 1 ≤ pos →
      (basementScan floor pos dirs = 0 ↔
        ∀ k, 1 ≤ k → k ≤ dirs.length → floor + running_floor (dirs.take k) ≠ -1) := by
  induction dirs with
  | nil =>
    intro floor pos _
    constructor
    · intro _ k hk hk'
      simp at hk'
      omega
    · intro _
      rfl
  | cons c rest ih =>
    intro floor pos hpos
    by_cases hf : floor + (if c = '(' then (1 : Int) else -1) = -1
    · constructor
      · intro h0
        exfalso
        simp only [basementScan, hf, if_pos] at h0
        omega
      · intro hall
        exfalso
        refine hall 1 le_rfl (by simp) ?_
        simpa [running_floor_cons, running_floor_nil] using hf
    · have hscan : basementScan floor pos (c :: rest) =
        basementScan (floor + (if c = '(' then (1 : Int) else -1)) (pos + 1) rest := by
        simp only [basementScan, hf, if_neg, not_false_iff]
      rw [hscan, ih _ (pos + 1) (by omega)]
      constructor
      · intro hall k hk hk'
        match k with
        | 1 =>
          rw [List.take_succ_cons, List.take_zero, running_floor_cons, running_floor_nil,
            add_zero]
          exact hf
        | (j + 2) =>
          rw [List.take_succ_cons, running_floor_cons, ← add_assoc]
          refine hall (j + 1) (by omega) ?_
          simp only [List.length_cons] at hk'
          omega
      · intro hall k hk hk'
        have h := hall (k + 1) (by omega) (by simp only [List.length_cons]; omega)
        rw [List.take_succ_cons, running_floor_cons, ← add_assoc] at h
        exact h

theorem basementScan_pos_spec (dirs : List Char) :
    ∀ (floor : Int) (pos : Nat), 1 ≤ pos → ∀ p, basementScan floor pos dirs = p → p ≠ 0 →
      pos ≤ p ∧ p - pos + 1 ≤ dirs.length ∧
      floor + running_floor (dirs.take (p - pos + 1)) = -1 ∧
      ∀ j, 1 ≤ j → j < p - pos + 1 → floor + running_floor (dirs.take j) ≠ -1 := by
  induction dirs with
  | nil =>
    intro floor pos _ p hp hp0
    exact absurd hp.symm hp0
  | cons c rest ih =>
    intro floor pos hpos p hp hp0
    by_cases hf : floor + (if c = '(' then (1 : Int) else -1) = -1
    · simp only [basementScan, hf, if_pos] at hp
      subst hp
      refine ⟨le_rfl, ?_, ?_, ?_⟩
      · simp only [List.length_cons]
        omega
      · have h1 : pos - pos + 1 = 1 := by omega
        rw [h1, List.take_succ_cons, List.take_zero, running_floor_cons, running_floor_nil,
          add_zero]
        exact hf
      · intro j hj hj'
        omega
    · simp only [basementScan, hf, if_neg, not_false_iff] at hp
      obtain ⟨hle, hlen, hcross, hmin⟩ := ih _ (pos + 1) (by omega) p hp hp0
      have hsub : p - (pos + 1) + 1 = p - pos := by omega
      rw [hsub] at hlen hcross hmin
      refine ⟨by omega, ?_, ?_, ?_⟩
      · simp only [List.length_cons]
        omega
      · have h1 : p - pos + 1 = (p - pos) + 1 := rfl
        rw [h1, List.take_succ_cons, running_floor_cons, ← add_assoc]
        exact hcross
      · intro j hj hj'
        match j with
        | 1 =>
          rw [List.take_succ_cons, List.take_zero, running_floor_cons, running_floor_nil,
            add_zero]
          exact hf
        | (i + 2) =>
          rw [List.take_succ_cons, running_floor_cons, ← add_assoc]
          exact hmin (i + 1) (by omega) (by omega)

/-- C1: for every sequence of valid direction symbols,
`find_first_basement_direction` returns `0` iff the running sum (starting
at 0, `+1` per `'('` and `-1` per `')'`) never equals `-1` at any nonempty
prefix; otherwise it returns the smallest 1-based index at which the
running sum first equals `-1`. -/
theorem first_basement_direction_position_spec (dirs : List Char)
    (hvalid : is_valid_directions_sequence dirs = true) :
    (find_first_basement_direction dirs = 0 ↔
      ∀ k, 1 ≤ k → k ≤ dirs.length → running_floor (dirs.take k) ≠ -1) ∧
    (find_first_basement_direction dirs ≠ 0 →
      1 ≤ find_first_basement_direction dirs ∧
      find_first_basement_direction dirs ≤ dirs.length ∧
      running_floor (dirs.take (find_first_basement_direction dirs)) = -1 ∧
      ∀ j, 1 ≤ j → j < find_first_basement_direction dirs →
        running_floor (dirs.take j) ≠ -1) := by
  clear hvalid
  constructor
  · have h := basementScan_eq_zero_iff dirs 0 1 le_rfl
    simpa [find_first_basement_direction] using h
  · intro hne
    obtain ⟨hle, hlen, hcross, hmin⟩ :=
      basementScan_pos_spec dirs 0 1 le_rfl (find_first_basement_direction dirs) rfl hne
    have hsub : find_first_basement_direction dirs - 1 + 1 =
        find_first_basement_direction dirs := by omega
    rw [hsub] at hlen hcross hmin
    refine ⟨hle, hlen, by simpa using hcross, ?_⟩
    intro j hj hj'
    have := hmin j hj hj'
    simpa using this

/-- Witness for C1 at the concrete input `")"`. -/
theorem first_basement_direction_position_spec_witness :
    (find_first_basement_direction [')'] = 0 ↔
      ∀ k, 1 ≤ k → k ≤ ([')'] : List Char).length →
        running_floor (([')'] : List Char).take k) ≠ -1) ∧
    (find_first_basement_direction [')'] ≠ 0 →
      1 ≤ find_first_basement_direction [')'] ∧
      find_first_basement_direction [')'] ≤ ([')'] : List Char).length ∧
      running_floor (([')'] : List Char).take (find_first_basement_direction [')'])) = -1 ∧
      ∀ j, 1 ≤ j → j < find_first_basement_direction [')'] →
        running_floor (([')'] : List Char).take j) ≠ -1) :=
  first_basement_direction_position_spec [')'] (by decide)

/-- C2, counterexample: on `"))((((("` the analyzer's first basement
position is `1` (the very first `')'` already brings the floor to `-1`),
not `2` as the claim states. -/
theorem scenario_first_crossing_counterexample :
    ¬ (compute_final_floor [')', ')', '(', '(', '(', '(', '('] = 3 ∧
       find_first_basement_direction [')', ')', '(', '(', '(', '(', '('] = 2 ∧
       find_first_basement_direction [')'] = 1) := by
  decide

/-- C2, amended: `"))((((("` gives final floor `3` and first basement
position `1`; `")"` gives first basement position `1`. -/
theorem scenario_values_amended :
    compute_final_floor [')', ')', '(', '(', '(', '(', '('] = 3 ∧
    find_first_basement_direction [')', ')', '(', '(', '(', '(', '('] = 1 ∧
    find_first_basement_direction [')'] = 1 := by
  decide

/-- C3: on sequences of valid symbols, `compute_final_floor` is the count
of `'('` minus the count of `')'`; on the empty sequence both the final
floor and the first basement position are `0`. -/
theorem final_floor_count_spec :
    (∀ dirs : List Char, is_valid_directions_sequence dirs = true →
      compute_final_floor dirs = (dirs.count '(' : Int) - (dirs.count ')' : Int)) ∧
    compute_final_floor ([] : List Char) = 0 ∧
    find_first_basement_direction ([] : List Char) = 0 := by
  refine ⟨?_, rfl, rfl⟩
  intro dirs hvalid
  induction dirs with
  | nil => simp [compute_final_floor]
  | cons c rest ih =>
    simp only [is_valid_directions_sequence, List.all_cons, Bool.and_eq_true] at hvalid ih
    have hrest := ih hvalid.2
    have hc : c = '(' ∨ c = ')' := by
      simpa using hvalid.1
    rcases hc with h | h <;> subst h
    · have : compute_final_floor ('(' :: rest) = 1 + compute_final_floor rest := by
        simp [compute_final_floor]
      rw [this, hrest]
      simp [List.count_cons]
      ring
    · have : compute_final_floor (')' :: rest) = -1 + compute_final_floor rest := by
        simp [compute_final_floor]
      rw [this, hrest]
      simp [List.count_cons]
      ring

/-- Witness for C3 at the concrete input `"()"`. -/
theorem final_floor_count_spec_witness :
    compute_final_floor ['(', ')'] =
      ((['(', ')'] : List Char).count '(' : Int) - ((['(', ')'] : List Char).count ')' : Int) :=
  final_floor_count_spec.1 ['(', ')'] (by decide)

/-- Successful construction: with positive dimensions `__init__` stores the
sorted pairwise products and twice their sum. -/
theorem PresentDimensions.init_ok (L W H : Int) (hL : 1 ≤ L) (hW : 1 ≤ W) (hH : 1 ≤ H) :
    PresentDimensions.init L W H =
      .ok ⟨L, W, H, List.insertionSort (· ≤ ·) [L * W, L * H, W * H],
        2 * (List.insertionSort (· ≤ ·) [L * W, L * H, W * H]).sum⟩ := by
  unfold PresentDimensions.init
  have hcond : (L < 1 || W < 1 || H < 1) = false := by
    simp only [Bool.or_eq_false_iff, decide_eq_false_iff_not, not_lt]
    exact ⟨⟨hL, hW⟩, hH⟩
  rw [hcond]
  rfl

/-- Failing construction: a non-positive dimension raises
`PresentDimensionsNotPositiveError`. -/
theorem PresentDimensions.init_error (L W H : Int) (hneg : L < 1 ∨ W < 1 ∨ H < 1) :
    PresentDimensions.init L W H = .error .notPositive := by
  unfold PresentDimensions.init
  have hcond : (L < 1 || W < 1 || H < 1) = true := by
    simp only [Bool.or_eq_true, decide_eq_true_eq]
    tauto
  rw [hcond]
  rfl

/-- The first element of a nonempty list is a member of it. -/
theorem list_headI_mem {l : List Int} (h : l ≠ []) : l.headI ∈ l := by
  cases l with
  | nil => exact absurd rfl h
  | cons x xs => simp [List.headI]

/-- In a list sorted ascending, the first element is a lower bound. -/
theorem sorted_list_headI_le {l : List Int} (hs : l.Sorted (· ≤ ·)) (a : Int) (ha : a ∈ l) :
    l.headI ≤ a := by
  cases l with
  | nil => cases ha
  | cons x xs =>
    rcases List.mem_cons.mp ha with rfl | h
    · exact le_refl _
    · exact (List.sorted_cons.mp hs).1 a h

/-- C4: for every `PresentDimensions` constructed from positive integers,
`side_areas` is the ascending sort of the three pairwise products,
`surface_area` is twice the sum of those products, and
`smallest_side_area` is the first (least) element of `side_areas`. -/
theorem present_dimensions_derived_spec (L W H : Int)
    (hL : 1 ≤ L) (hW : 1 ≤ W) (hH : 1 ≤ H) :
    ∃ p, PresentDimensions.init L W H = .ok p ∧
      p.side_areas.Sorted (· ≤ ·) ∧
      p.side_areas.Perm [L * W, L * H, W * H] ∧
      p.surface_area = 2 * (L * W + L * H + W * H) ∧
      p.smallest_side_area = p.side_areas.headI ∧
      p.smallest_side_area ∈ p.side_areas ∧
      ∀ a ∈ p.side_areas, p.smallest_side_area ≤ a := by
  refine ⟨_, PresentDimensions.init_ok L W H hL hW hH, ?_, ?_, ?_, rfl, ?_, ?_⟩
  · exact List.sorted_insertionSort _ _
  · exact List.perm_insertionSort _ _
  · have hperm := List.perm_insertionSort (· ≤ · : Int → Int → Prop) [L * W, L * H, W * H]
    have hsum := hperm.sum_eq
    simp only [hsum]
    simp [List.sum_cons]
    ring
  · have hperm := List.perm_insertionSort (· ≤ · : Int → Int → Prop) [L * W, L * H, W * H]
    have hne : List.insertionSort (· ≤ · : Int → Int → Prop) [L * W, L * H, W * H] ≠ [] := by
      intro h
      have := hperm.length_eq
      rw [h] at this
      simp at this
    simpa [PresentDimensions.smallest_side_area] using list_headI_mem hne
  · intro a ha
    exact sorted_list_headI_le
      (List.sorted_insertionSort (· ≤ · : Int → Int → Prop) [L * W, L * H, W * H]) a ha

/-- Witness for C4 at the concrete dimensions (3, 2, 1). -/
theorem present_dimensions_derived_spec_witness :
    ∃ p, PresentDimensions.init 3 2 1 = .ok p ∧
      p.side_areas.Sorted (· ≤ ·) ∧
      p.side_areas.Perm [3 * 2, 3 * 1, 2 * 1] ∧
      p.surface_area = 2 * (3 * 2 + 3 * 1 + 2 * 1) ∧
      p.smallest_side_area = p.side_areas.headI ∧
      p.smallest_side_area ∈ p.side_areas ∧
      ∀ a ∈ p.side_areas, p.smallest_side_area ≤ a :=
  present_dimensions_derived_spec 3 2 1 (by norm_num) (by norm_num) (by norm_num)

/-- C6: the wrapping aggregator's total is 0 on the empty collection,
the single item's cost on a singleton, and additive over concatenation. -/
theorem total_wrapping_paper_additive :
    total_wrapping_paper_required [] = 0 ∧
    (∀ p, total_wrapping_paper_required [p] = wrapping_paper_required p) ∧
    ∀ l1 l2 : List PresentDimensions,
      total_wrapping_paper_required (l1 ++ l2) =
        total_wrapping_paper_required l1 + total_wrapping_paper_required l2 := by
  refine ⟨rfl, ?_, ?_⟩
  · intro p
    simp [total_wrapping_paper_required]
  · intro l1 l2
    simp [total_wrapping_paper_required]

/-- C7: both CLI `main` functions return 3 when the file read raises a
`FileInputError`, 4 when the content fails validation, and 0 when reading
and validation both succeed. -/
theorem cli_exit_codes_spec :
    (∀ e : FileInputError, floorfinder_main (.error e) = 3) ∧
    (∀ s, (∃ err, FloorDirectionsAnalysis.make s = .error err) →
      floorfinder_main (.ok s) = 4) ∧
    (∀ s a, FloorDirectionsAnalysis.make s = .ok a → floorfinder_main (.ok s) = 0) ∧
    (∀ e : FileInputError, wrappingordercalc_main (.error e) = 3) ∧
    (∀ lines, (∃ err, parse_dimension_lines lines = .error err) →
      wrappingordercalc_main (.ok lines) = 4) ∧
    (∀ lines dims, parse_dimension_lines lines = .ok dims →
      wrappingordercalc_main (.ok lines) = 0) := by
  refine ⟨fun e => rfl, ?_, ?_, fun e => rfl, ?_, ?_⟩
  · intro s ⟨err, herr⟩
    simp [floorfinder_main, herr]
  · intro s a ha
    simp [floorfinder_main, ha]
  · intro lines ⟨err, herr⟩
    simp [wrappingordercalc_main, herr]
  · intro lines dims hdims
    simp [wrappingordercalc_main, hdims]

/-- Witness for C7: one concrete run per exit-code branch of each program. -/
theorem cli_exit_codes_spec_witness :
    floorfinder_main (.error .pathDoesNotExist) = 3 ∧
    floorfinder_main (.ok ['\n']) = 4 ∧
    floorfinder_main (.ok []) = 0 ∧
    wrappingordercalc_main (.error .notAFile) = 3 ∧
    wrappingordercalc_main (.ok [[]]) = 4 ∧
    wrappingordercalc_main (.ok []) = 0 :=
  ⟨cli_exit_codes_spec.1 .pathDoesNotExist,
   cli_exit_codes_spec.2.1 ['\n'] ⟨.invalidFloorDirections, rfl⟩,
   cli_exit_codes_spec.2.2.1 [] ⟨[], none, none⟩ rfl,
   cli_exit_codes_spec.2.2.2.1 .notAFile,
   cli_exit_codes_spec.2.2.2.2.1 [[]] ⟨.invalidRepresentation, rfl⟩,
   cli_exit_codes_spec.2.2.2.2.2 [] [] rfl⟩

/-- C8: `final_floor` and `first_basement_direction_position` are pure
functions of the validated sequence: a freshly constructed instance yields
the computed values, and on any instance whose caches are consistent
(populated or not) a read yields the computed value, a second read yields
the same value, and consistency is preserved. -/
theorem analysis_purity_spec :
    (∀ s a, FloorDirectionsAnalysis.make s = .ok a →
      a.final_floor.1 = compute_final_floor s ∧
      a.first_basement_direction_position.1 = find_first_basement_direction s) ∧
    (∀ a : FloorDirectionsAnalysis, a.cacheConsistent →
      a.final_floor.1 = compute_final_floor a.directions ∧
      a.first_basement_direction_position.1 = find_first_basement_direction a.directions ∧
      (a.final_floor.2).final_floor.1 = a.final_floor.1 ∧
      ((a.first_basement_direction_position.2).first_basement_direction_position).1 =
        a.first_basement_direction_position.1 ∧
      (a.final_floor.2).cacheConsistent ∧
      (a.first_basement_direction_position.2).cacheConsistent) := by
  constructor
  · intro s a h
    have hvalid : is_valid_directions_sequence s = true := by
      by_contra hv
      simp [FloorDirectionsAnalysis.make, hv] at h
    simp only [FloorDirectionsAnalysis.make, hvalid, if_true, Except.ok.injEq] at h
    subst h
    exact ⟨rfl, rfl⟩
  · rintro ⟨dirs, ffc, fbc⟩ ⟨hf, hb⟩
    simp only at hf hb
    rcases hf with hf | hf <;> rcases hb with hb | hb <;> subst hf <;> subst hb <;>
      simp [FloorDirectionsAnalysis.final_floor,
        FloorDirectionsAnalysis.first_basement_direction_position,
        FloorDirectionsAnalysis.cacheConsistent]

/-- Witness for C8: a fresh instance for the sequence `"()"` and a
cache-consistent instance read twice. -/
theorem analysis_purity_spec_witness :
    (FloorDirectionsAnalysis.mk ['(', ')'] none none).final_floor.1 =
        compute_final_floor ['(', ')'] ∧
      (FloorDirectionsAnalysis.mk ['(', ')'] none none).first_basement_direction_position.1 =
        find_first_basement_direction ['(', ')'] :=
  analysis_purity_spec.1 ['(', ')'] (FloorDirectionsAnalysis.mk ['(', ')'] none none) rfl

/-- C10: `floorfinder.main` hands the raw file content to the analyzer, so
appending any character outside `{'(', ')'}` (such as the trailing newline
of a text file) to a valid sequence makes construction fail and `main`
return exit code 4. -/
theorem floorfinder_trailing_newline_spec (s : List Char) (c : Char)
    (hs : is_valid_directions_sequence s = true) (hc : c ≠ '(' ∧ c ≠ ')') :
    (∃ err, FloorDirectionsAnalysis.make (s ++ [c]) = .error err) ∧
    floorfinder_main (.ok (s ++ [c])) = 4 := by
  clear hs
  have hinvalid : is_valid_directions_sequence (s ++ [c]) = false := by
    simp [is_valid_directions_sequence, List.all_append, hc.1, hc.2]
  constructor
  · exact ⟨.invalidFloorDirections, by simp [FloorDirectionsAnalysis.make, hinvalid]⟩
  · simp [floorfinder_main, FloorDirectionsAnalysis.make, hinvalid]

/-- Witness for C10 at the sequence `"()"` with a trailing newline. -/
theorem floorfinder_trailing_newline_spec_witness :
    (∃ err, FloorDirectionsAnalysis.make (['(', ')'] ++ ['\n']) = .error err) ∧
    floorfinder_main (.ok (['(', ')'] ++ ['\n'])) = 4 :=
  floorfinder_trailing_newline_spec ['(', ')'] '\n' (by decide) (by decide)

/-- A character with `isDigit` differs from any character without it. -/
theorem digit_ne {c d : Char} (h : c.isDigit = true) (hd : d.isDigit = false) : c ≠ d := by
  intro he
  subst he
  rw [h] at hd
  cases hd

/-- Decimal digits are not Python whitespace. -/
theorem digit_not_space {c : Char} (h : c.isDigit = true) : isPySpace c = false := by
  cases hval : isPySpace c with
  | false => rfl
  | true =>
    exfalso
    simp only [isPySpace, Bool.or_eq_true, decide_eq_true_eq] at hval
    rcases hval with ((((h1 | h1) | h1) | h1) | h1) | h1 <;> (subst h1; exact absurd h (by decide))

/-- `dropWhile` consumes a leading block of satisfying elements. -/
theorem dropWhile_append_of_all {p : Char → Bool} {w : List Char}
    (hw : ∀ c ∈ w, p c = true) (l : List Char) :
    (w ++ l).dropWhile p = l.dropWhile p := by
  induction w with
  | nil => rfl
  | cons c w' ih =>
    have hc : p c = true := hw c (by simp)
    simp only [List.cons_append, List.dropWhile_cons, hc, if_true]
    exact ih (fun d hd => hw d (by simp [hd]))

/-- `dropWhile` stops at a failing head. -/
theorem dropWhile_cons_of_head_false {p : Char → Bool} {c : Char} (hc : p c = false)
    (l : List Char) : (c :: l).dropWhile p = c :: l := by
  simp [List.dropWhile_cons, hc]

/-- `str.strip()` is the identity on strings without surrounding whitespace. -/
theorem pyStrip_of_no_space {t : List Char} (h : ∀ c ∈ t, isPySpace c = false) :
    pyStrip t = t := by
  have hdw : ∀ l : List Char, (∀ c ∈ l, isPySpace c = false) → l.dropWhile isPySpace = l := by
    intro l hl
    cases l with
    | nil => rfl
    | cons c rest => exact dropWhile_cons_of_head_false (hl c (by simp)) rest
  unfold pyStrip
  rw [hdw _ h, hdw _ (by intro c hc; exact h c (List.mem_reverse.mp hc)), List.reverse_reverse]

/-- `str.strip()` removes exactly the surrounding whitespace when the core
starts and ends with non-whitespace characters. -/
theorem pyStrip_surround {ws1 ws2 core : List Char} {c d : Char} {mid front : List Char}
    (hw1 : ∀ x ∈ ws1, isPySpace x = true) (hw2 : ∀ x ∈ ws2, isPySpace x = true)
    (hcore1 : core = c :: mid) (hcore2 : core = front ++ [d])
    (hc : isPySpace c = false) (hd : isPySpace d = false) :
    pyStrip (ws1 ++ core ++ ws2) = core := by
  unfold pyStrip
  have h1 : (ws1 ++ core ++ ws2).dropWhile isPySpace = core ++ ws2 := by
    rw [List.append_assoc, dropWhile_append_of_all hw1, hcore1, List.cons_append,
      dropWhile_cons_of_head_false hc, ← List.cons_append, ← hcore1]
  rw [h1, List.reverse_append,
    dropWhile_append_of_all (fun x hx => hw2 x (List.mem_reverse.mp hx))]
  have h2 : core.reverse.dropWhile isPySpace = core.reverse := by
    rw [hcore2, List.reverse_append, List.reverse_singleton, List.singleton_append,
      dropWhile_cons_of_head_false hd]
  rw [h2, List.reverse_reverse]

/-- A run of digit characters passes the digit-run tail check. -/
theorem digitsTail_of_digits {t : List Char} (h : ∀ c ∈ t, c.isDigit = true) :
    digitsTail t = true := by
  induction t with
  | nil => rfl
  | cons c rest ih =>
    have hc : c.isDigit = true := h c (by simp)
    have hne : c ≠ '_' := digit_ne hc (by decide)
    rw [digitsTail.eq_def]
    simp only [if_neg hne]
    rw [hc, ih (fun d hd => h d (by simp [hd]))]
    rfl

/-- A nonempty run of digit characters is a Python digit run. -/
theorem pyDigits_of_digits {t : List Char} (hne : t ≠ []) (h : ∀ c ∈ t, c.isDigit = true) :
    pyDigits t = true := by
  cases t with
  | nil => exact absurd rfl hne
  | cons c rest =>
    simp only [pyDigits]
    rw [h c (by simp), digitsTail_of_digits (fun d hd => h d (by simp [hd]))]
    rfl

/-- Filtering out underscores from a digit run changes nothing. -/
theorem filter_underscore_of_digits {t : List Char} (h : ∀ c ∈ t, c.isDigit = true) :
    t.filter (fun c => c ≠ '_') = t := by
  rw [List.filter_eq_self]
  intro a ha
  simpa using digit_ne (h a ha) (by decide)

/-- `int()` on a nonempty digit string returns its decimal value. -/
theorem pyInt_digits {t : List Char} (hne : t ≠ []) (h : ∀ c ∈ t, c.isDigit = true) :
    pyInt t = some ((digitsVal t : Int)) := by
  obtain ⟨c, rest, rfl⟩ : ∃ c rest, t = c :: rest := by
    cases t with
    | nil => exact absurd rfl hne
    | cons c rest => exact ⟨c, rest, rfl⟩
  have hc : c.isDigit = true := h c (by simp)
  have hstrip : pyStrip (c :: rest) = c :: rest :=
    pyStrip_of_no_space (fun d hd => digit_not_space (h d hd))
  unfold pyInt
  simp only [hstrip]
  split
  · next r heq =>
    exfalso
    injection heq with h1 _
    exact digit_ne hc (by decide) h1
  · next r heq =>
    exfalso
    injection heq with h1 _
    exact digit_ne hc (by decide) h1
  · rw [pyDigits_of_digits (by simp) h, if_pos rfl, filter_underscore_of_digits h]

/-- Splitting a separator-free block glued onto a remainder. -/
theorem pySplit_no_sep_append {sep : Char} (t : List Char) (hns : ∀ c ∈ t, c ≠ sep)
    (r : List Char) (h : List Char) (ts : List (List Char))
    (hr : pySplit sep r = h :: ts) :
    pySplit sep (t ++ r) = (t ++ h) :: ts := by
  induction t with
  | nil => simpa using hr
  | cons c t' ih =>
    have hc : c ≠ sep := hns c (by simp)
    have ih' := ih (fun d hd => hns d (by simp [hd]))
    simp only [List.cons_append, pySplit, if_neg hc, List.append_eq, ih']

/-- Splitting at a leading separator yields a leading empty chunk. -/
theorem pySplit_sep_cons {sep : Char} (r : List Char) :
    pySplit sep (sep :: r) = [] :: pySplit sep r := by
  simp [pySplit]

/-- Splitting a separator-free token followed by a separator. -/
theorem pySplit_token {sep : Char} (t : List Char) (hns : ∀ c ∈ t, c ≠ sep)
    (r : List Char) : pySplit sep (t ++ sep :: r) = t :: pySplit sep r := by
  have h := pySplit_no_sep_append t hns (sep :: r) [] (pySplit sep r) (pySplit_sep_cons r)
  simpa using h

/-- Splitting a separator-free string yields that one chunk. -/
theorem pySplit_whole {sep : Char} (t : List Char) (hns : ∀ c ∈ t, c ≠ sep) :
    pySplit sep t = [t] := by
  have h := pySplit_no_sep_append t hns [] [] [] rfl
  simpa using h

/-- Parsed token lists have the same length as the token list. -/
theorem parseTokens_length (toks : List (List Char)) (vs : List Int)
    (h : parseTokens toks = some vs) : vs.length = toks.length := by
  induction toks generalizing vs with
  | nil =>
    simp only [parseTokens, Option.some.injEq] at h
    subst h
    rfl
  | cons t ts ih =>
    simp only [parseTokens] at h
    cases hpi : pyInt t with
    | none => rw [hpi] at h; cases h
    | some v =>
      rw [hpi] at h
      cases hpt : parseTokens ts with
      | none => rw [hpt] at h; cases h
      | some vs' =>
        rw [hpt] at h
        simp only [Option.some.injEq] at h
        subst h
        simp [ih vs' hpt]

/-- One failing token makes the whole comprehension fail. -/
theorem parseTokens_of_mem_none (toks : List (List Char)) (t : List Char)
    (ht : t ∈ toks) (hnone : pyInt t = none) : parseTokens toks = none := by
  induction toks with
  | nil => cases ht
  | cons t0 ts ih =>
    rcases List.mem_cons.mp ht with rfl | h
    · simp [parseTokens, hnone]
    · simp only [parseTokens]
      cases hpi : pyInt t0 with
      | none => rfl
      | some v => simp [ih h]

/-- Core success path of `from_string`: when stripping leaves three
nonempty positive digit tokens joined by `'x'`, parsing succeeds and the
dimensions are their decimal values. -/
theorem from_string_of_stripped (s t1 t2 t3 : List Char)
    (hstrip : pyStrip s = t1 ++ 'x' :: (t2 ++ 'x' :: t3))
    (h1 : t1 ≠ []) (h2 : t2 ≠ []) (h3 : t3 ≠ [])
    (hd1 : ∀ c ∈ t1, c.isDigit = true) (hd2 : ∀ c ∈ t2, c.isDigit = true)
    (hd3 : ∀ c ∈ t3, c.isDigit = true)
    (hp1 : 1 ≤ digitsVal t1) (hp2 : 1 ≤ digitsVal t2) (hp3 : 1 ≤ digitsVal t3) :
    ∃ p, PresentDimensions.from_string s = .ok p ∧
      p.length = (digitsVal t1 : Int) ∧ p.width = (digitsVal t2 : Int) ∧
      p.height = (digitsVal t3 : Int) := by
  have hsplit : pySplit 'x' (pyStrip s) = [t1, t2, t3] := by
    rw [hstrip, pySplit_token t1 (fun c hc => digit_ne (hd1 c hc) (by decide)),
      pySplit_token t2 (fun c hc => digit_ne (hd2 c hc) (by decide)),
      pySplit_whole t3 (fun c hc => digit_ne (hd3 c hc) (by decide))]
  have hpt : parseTokens [t1, t2, t3] =
      some [(digitsVal t1 : Int), (digitsVal t2 : Int), (digitsVal t3 : Int)] := by
    simp [parseTokens, pyInt_digits h1 hd1, pyInt_digits h2 hd2, pyInt_digits h3 hd3]
  have hinit := PresentDimensions.init_ok (digitsVal t1) (digitsVal t2) (digitsVal t3)
    (by exact_mod_cast hp1) (by exact_mod_cast hp2) (by exact_mod_cast hp3)
  simp only [PresentDimensions.from_string, hsplit, hpt, hinit]
  exact ⟨_, rfl, rfl, rfl, rfl⟩

/-- C5, counterexample: on `"3x2x-1"` (all three tokens parse as integers,
the third is non-positive) `from_string` raises
`InvalidPresentRepresentationError`, not the non-positive-dimension error
the claim states: the constructor's `PresentDimensionsNotPositiveError` is
a `ValueError` and is caught and re-raised by the `except ValueError`
clause. -/
theorem from_string_nonpositive_counterexample :
    PresentDimensions.from_string ['3', 'x', '2', 'x', '-', '1'] =
      .error .invalidRepresentation ∧
    PresentDimensions.from_string ['3', 'x', '2', 'x', '-', '1'] ≠
      .error .notPositive := by
  constructor
  · rfl
  · intro h
    rw [show PresentDimensions.from_string ['3', 'x', '2', 'x', '-', '1'] =
      .error .invalidRepresentation from rfl] at h
    injection h with h'
    cases h'

/-- C5, amended: `"LxWxH"` with positive decimal integers parses exactly;
token count ≠ 3 or a non-integer token raises the malformed-representation
error; and three integer tokens with a non-positive value also raise the
malformed-representation error (the constructor's non-positive error is
re-raised as malformed by the `except ValueError` clause). -/
theorem from_string_spec_amended :
    (∀ t1 t2 t3 : List Char, t1 ≠ [] → t2 ≠ [] → t3 ≠ [] →
      (∀ c ∈ t1, c.isDigit = true) → (∀ c ∈ t2, c.isDigit = true) →
      (∀ c ∈ t3, c.isDigit = true) →
      1 ≤ digitsVal t1 → 1 ≤ digitsVal t2 → 1 ≤ digitsVal t3 →
      ∃ p, PresentDimensions.from_string (t1 ++ 'x' :: (t2 ++ 'x' :: t3)) = .ok p ∧
        p.length = (digitsVal t1 : Int) ∧ p.width = (digitsVal t2 : Int) ∧
        p.height = (digitsVal t3 : Int)) ∧
    (∀ s : List Char,
      ((pySplit 'x' (pyStrip s)).length ≠ 3 ∨
        (∃ t ∈ pySplit 'x' (pyStrip s), pyInt t = none)) →
      PresentDimensions.from_string s = .error .invalidRepresentation) ∧
    (∀ (s : List Char) (l w h : Int),
      parseTokens (pySplit 'x' (pyStrip s)) = some [l, w, h] →
      (l < 1 ∨ w < 1 ∨ h < 1) →
      PresentDimensions.from_string s = .error .invalidRepresentation) := by
  refine ⟨?_, ?_, ?_⟩
  · intro t1 t2 t3 h1 h2 h3 hd1 hd2 hd3 hp1 hp2 hp3
    have hns : ∀ c ∈ t1 ++ 'x' :: (t2 ++ 'x' :: t3), isPySpace c = false := by
      intro c hc
      simp only [List.mem_append, List.mem_cons] at hc
      rcases hc with hc | rfl | hc | rfl | hc
      · exact digit_not_space (hd1 c hc)
      · rfl
      · exact digit_not_space (hd2 c hc)
      · rfl
      · exact digit_not_space (hd3 c hc)
    exact from_string_of_stripped _ t1 t2 t3 (pyStrip_of_no_space hns)
      h1 h2 h3 hd1 hd2 hd3 hp1 hp2 hp3
  · intro s hbad
    cases hcase : parseTokens (pySplit 'x' (pyStrip s)) with
    | none => simp [PresentDimensions.from_string, hcase]
    | some dims =>
      rcases hbad with hlen | ⟨t, ht, htnone⟩
      · have hdl := parseTokens_length _ _ hcase
        rcases dims with _ | ⟨a, _ | ⟨b, _ | ⟨c, _ | ⟨d, rest⟩⟩⟩⟩
        · simp [PresentDimensions.from_string, hcase]
        · simp [PresentDimensions.from_string, hcase]
        · simp [PresentDimensions.from_string, hcase]
        · exfalso
          apply hlen
          simpa using hdl.symm
        · simp [PresentDimensions.from_string, hcase]
      · have hnone := parseTokens_of_mem_none _ t ht htnone
        rw [hnone] at hcase
        cases hcase
  · intro s l w h hp hneg
    have hinit := PresentDimensions.init_error l w h hneg
    simp [PresentDimensions.from_string, hp, hinit]

/-- Witness for C5: the three branches at `"3x2x1"`, `"3x2"` and
`"3x2x-1"`. -/
theorem from_string_spec_amended_witness :
    (∃ p, PresentDimensions.from_string (['3'] ++ 'x' :: (['2'] ++ 'x' :: ['1'])) = .ok p ∧
      p.length = (digitsVal ['3'] : Int) ∧ p.width = (digitsVal ['2'] : Int) ∧
      p.height = (digitsVal ['1'] : Int)) ∧
    PresentDimensions.from_string ['3', 'x', '2'] = .error .invalidRepresentation ∧
    PresentDimensions.from_string ['3', 'x', '2', 'x', '-', '1'] =
      .error .invalidRepresentation :=
  ⟨from_string_spec_amended.1 ['3'] ['2'] ['1'] (by decide) (by decide) (by decide)
      (by decide) (by decide) (by decide) (by decide) (by decide) (by decide),
    from_string_spec_amended.2.1 ['3', 'x', '2'] (Or.inl (by decide)),
    from_string_spec_amended.2.2 ['3', 'x', '2', 'x', '-', '1'] 3 2 (-1) (by decide)
      (Or.inr (Or.inr (by decide)))⟩

/-- C9: `from_string` tolerates leading and trailing whitespace around the
whole representation: surrounding a positive `"LxWxH"` token with
whitespace (for instance the trailing newline kept by `readlines`) parses
to the same dimensions. -/
theorem from_string_whitespace_tolerant (ws1 ws2 t1 t2 t3 : List Char)
    (hw1 : ∀ x ∈ ws1, isPySpace x = true) (hw2 : ∀ x ∈ ws2, isPySpace x = true)
    (h1 : t1 ≠ []) (h2 : t2 ≠ []) (h3 : t3 ≠ [])
    (hd1 : ∀ c ∈ t1, c.isDigit = true) (hd2 : ∀ c ∈ t2, c.isDigit = true)
    (hd3 : ∀ c ∈ t3, c.isDigit = true)
    (hp1 : 1 ≤ digitsVal t1) (hp2 : 1 ≤ digitsVal t2) (hp3 : 1 ≤ digitsVal t3) :
    ∃ p, PresentDimensions.from_string
        (ws1 ++ (t1 ++ 'x' :: (t2 ++ 'x' :: t3)) ++ ws2) = .ok p ∧
      p.length = (digitsVal t1 : Int) ∧ p.width = (digitsVal t2 : Int) ∧
      p.height = (digitsVal t3 : Int) := by
  obtain ⟨c, t1', rfl⟩ : ∃ c t1', t1 = c :: t1' := by
    cases t1 with
    | nil => exact absurd rfl h1
    | cons c t1' => exact ⟨c, t1', rfl⟩
  obtain ⟨front3, d, rfl⟩ : ∃ front3 d, t3 = front3 ++ [d] := by
    rcases List.eq_nil_or_concat t3 with rfl | ⟨front3, d, rfl⟩
    · exact absurd rfl h3
    · exact ⟨front3, d, List.concat_eq_append front3 d⟩
  have hcore2 : (c :: t1') ++ 'x' :: (t2 ++ 'x' :: (front3 ++ [d])) =
      ((c :: t1') ++ 'x' :: (t2 ++ 'x' :: front3)) ++ [d] := by
    simp
  have hstrip : pyStrip (ws1 ++ ((c :: t1') ++ 'x' :: (t2 ++ 'x' :: (front3 ++ [d]))) ++ ws2) =
      (c :: t1') ++ 'x' :: (t2 ++ 'x' :: (front3 ++ [d])) :=
    pyStrip_surround hw1 hw2 (List.cons_append c t1' _) hcore2
      (digit_not_space (hd1 c (by simp)))
      (digit_not_space (hd3 d (by simp)))
  exact from_string_of_stripped _ _ t2 _ hstrip h1 h2 h3 hd1 hd2 hd3 hp1 hp2 hp3

/-- Witness for C9: the line `"2x3x4\n"` as read from a dimensions file. -/
theorem from_string_whitespace_tolerant_witness :
    ∃ p, PresentDimensions.from_string
        ([] ++ (['2'] ++ 'x' :: (['3'] ++ 'x' :: ['4'])) ++ ['\n']) = .ok p ∧
      p.length = (digitsVal ['2'] : Int) ∧ p.width = (digitsVal ['3'] : Int) ∧
      p.height = (digitsVal ['4'] : Int) :=
  from_string_whitespace_tolerant [] ['\n'] ['2'] ['3'] ['4']
    (by decide) (by decide) (by decide) (by decide) (by decide)
    (by decide) (by decide) (by decide) (by decide) (by decide) (by decide)
